import Mathlib

/-!
Verification of the heartbeat-history bucketizer of
src/components/sections/UptimeKuma.tsx (function buildHistorySegments,
lines 228-246), the HistoryBucketizer of the design document.

The embedding mirrors the source line by line:

  const buildHistorySegments = (heartbeats: Heartbeat[], size = 24) => {
    if (heartbeats.length === 0) { return []; }
    const sorted = [...heartbeats].sort(
      (a, b) => new Date(a.time).getTime() - new Date(b.time).getTime());
    const chunkSize = Math.ceil(sorted.length / size);
    const startIndex = Math.max(0, sorted.length - chunkSize * size);
    const recent = sorted.slice(startIndex);
    const lastHeartbeat = recent[recent.length - 1];
    return Array.from({ length: size }, (_, index) => {
      const chunk = recent.slice(index * chunkSize, (index + 1) * chunkSize);
      if (chunk.length) { return chunk[chunk.length - 1]; }
      return lastHeartbeat;
    });
  };

Heartbeat.time is modelled as the already-parsed epoch-millisecond value
(an integer), since on the documented input domain every time string
parses to a finite number and the function only ever compares those
numbers.  The ECMAScript sort is stable, so it is modelled by the stable
List.insertionSort with the non-strict comparison by time.
-/

/-- One heartbeat record of the Uptime Kuma status API, as declared in the
source.  The time field holds the parsed timestamp, the value of
new Date(time).getTime(), in epoch milliseconds. -/
structure Heartbeat where
  id : Int
  monitor_id : Int
  status : Int
  msg : String
  time : Int
  ping : Int
  duration : Int
  down_count : Int
  important : Int
deriving DecidableEq

/-- Comparator order of the sort call: a precedes b when the parsed time of
a is at most the parsed time of b. -/
def hbLe (a b : Heartbeat) : Prop := a.time ≤ b.time

/-- Strict version of hbLe, used to state uniqueness of the sorted order. -/
def hbLt (a b : Heartbeat) : Prop := a.time < b.time

instance : DecidableRel hbLe := fun a b => inferInstanceAs (Decidable (a.time ≤ b.time))

instance : DecidableRel hbLt := fun a b => inferInstanceAs (Decidable (a.time < b.time))

instance : IsTotal Heartbeat hbLe := ⟨fun a b => Int.le_total a.time b.time⟩

instance : IsTrans Heartbeat hbLe := ⟨fun _ _ _ hab hbc => Int.le_trans hab hbc⟩

instance : IsAntisymm Heartbeat hbLt := ⟨fun _ _ h1 h2 => absurd h2 (lt_asymm h1)⟩

/-- The stable ascending sort by timestamp:
[...heartbeats].sort((a, b) => timeA - timeB). -/
def sortHeartbeats (l : List Heartbeat) : List Heartbeat :=
  List.insertionSort hbLe l

/-- chunkSize = Math.ceil(sorted.length / size), as a natural number
(ceiling division written with addition). -/
def chunkSizeOf (l : List Heartbeat) (size : Nat) : Nat :=
  ((sortHeartbeats l).length + size - 1) / size

/-- startIndex = Math.max(0, sorted.length - chunkSize * size); natural
subtraction already truncates at zero. -/
def startIndexOf (l : List Heartbeat) (size : Nat) : Nat :=
  (sortHeartbeats l).length - chunkSizeOf l size * size

/-- recent = sorted.slice(startIndex). -/
def recentOf (l : List Heartbeat) (size : Nat) : List Heartbeat :=
  (sortHeartbeats l).drop (startIndexOf l size)

/-- The bucket produced for one index: the last element of
chunk = recent.slice(index * chunkSize, (index + 1) * chunkSize) when that
chunk is non-empty, and otherwise lastHeartbeat = recent[recent.length - 1].
The fallback of the inner getLastD is only reached when recent is empty,
which the guard of buildHistorySegments rules out whenever a bucket exists. -/
def bucketOf (l : List Heartbeat) (size : Nat) (h : l ≠ []) (i : Nat) : Heartbeat :=
  let chunk := ((recentOf l size).drop (i * chunkSizeOf l size)).take (chunkSizeOf l size)
  chunk.getLastD ((recentOf l size).getLastD (l.head h))

/-- The bucketizer itself: empty input short-circuits to the empty list,
otherwise exactly size buckets are produced, one per index. -/
def buildHistorySegments (heartbeats : List Heartbeat) (size : Nat := 24) : List Heartbeat :=
  if h : heartbeats = [] then []
  else List.ofFn fun i : Fin size => bucketOf heartbeats size h i

/-- A sample heartbeat used in concrete witness inputs: timestamp t,
status st, record id i, all remaining fields zeroed. -/
def hbAt (t st i : Int) : Heartbeat :=
  ⟨i, 1, st, "", t, 0, 0, 0, 0⟩

-- Basic facts about the embedding.

theorem length_sortHeartbeats (l : List Heartbeat) :
    (sortHeartbeats l).length = l.length :=
  (List.perm_insertionSort hbLe l).length_eq

theorem perm_sortHeartbeats (l : List Heartbeat) :
    List.Perm (sortHeartbeats l) l :=
  List.perm_insertionSort hbLe l

theorem sorted_sortHeartbeats (l : List Heartbeat) :
    List.Sorted hbLe (sortHeartbeats l) :=
  List.sorted_insertionSort hbLe l

theorem length_sortHeartbeats_pos (l : List Heartbeat) (h : l ≠ []) :
    0 < (sortHeartbeats l).length := by
  rw [length_sortHeartbeats]
  exact List.length_pos.mpr h

theorem chunkSizeOf_pos (l : List Heartbeat) (size : Nat) (h : l ≠ []) (hs : 0 < size) :
    0 < chunkSizeOf l size := by
  have hn := length_sortHeartbeats_pos l h
  unfold chunkSizeOf
  exact (Nat.le_div_iff_mul_le hs).mpr (by omega)

theorem length_le_chunkSizeOf_mul (l : List Heartbeat) (size : Nat) (hs : 0 < size) :
    (sortHeartbeats l).length ≤ chunkSizeOf l size * size := by
  unfold chunkSizeOf
  have h1 := Nat.div_add_mod ((sortHeartbeats l).length + size - 1) size
  have h2 := Nat.mod_lt ((sortHeartbeats l).length + size - 1) hs
  have h3 : size * (((sortHeartbeats l).length + size - 1) / size)
      = ((sortHeartbeats l).length + size - 1) / size * size := Nat.mul_comm _ _
  omega

theorem startIndexOf_eq_zero (l : List Heartbeat) (size : Nat) (hs : 0 < size) :
    startIndexOf l size = 0 := by
  have := length_le_chunkSizeOf_mul l size hs
  unfold startIndexOf
  omega

theorem recentOf_eq_sorted (l : List Heartbeat) (size : Nat) (hs : 0 < size) :
    recentOf l size = sortHeartbeats l := by
  unfold recentOf
  rw [startIndexOf_eq_zero l size hs, List.drop_zero]

theorem buildHistorySegments_eq_ofFn (l : List Heartbeat) (size : Nat) (h : l ≠ []) :
    buildHistorySegments l size = List.ofFn fun i : Fin size => bucketOf l size h i := by
  unfold buildHistorySegments
  rw [dif_neg h]

/-- Position of bucket i inside the sorted series: one less than the
minimum of (i + 1) * chunkSize and the series length. -/
def bucketIdx (l : List Heartbeat) (size i : Nat) : Nat :=
  min ((i + 1) * chunkSizeOf l size) (sortHeartbeats l).length - 1

theorem bucketIdx_lt (l : List Heartbeat) (size i : Nat) (h : l ≠ []) :
    bucketIdx l size i < (sortHeartbeats l).length := by
  have := length_sortHeartbeats_pos l h
  unfold bucketIdx
  omega

theorem bucketOf_eq_getElem? (l : List Heartbeat) (size : Nat) (h : l ≠ []) (hs : 0 < size)
    (i : Nat) :
    bucketOf l size h i = ((sortHeartbeats l)[bucketIdx l size i]?).getD (l.head h) := by
  have hn : 0 < (sortHeartbeats l).length := length_sortHeartbeats_pos l h
  have hc : 0 < chunkSizeOf l size := chunkSizeOf_pos l size h hs
  have hmul : (i + 1) * chunkSizeOf l size = i * chunkSizeOf l size + chunkSizeOf l size :=
    Nat.succ_mul i _
  unfold bucketOf bucketIdx
  rw [recentOf_eq_sorted l size hs]
  by_cases hcase : (sortHeartbeats l).length ≤ i * chunkSizeOf l size
  · have hmin : min ((i + 1) * chunkSizeOf l size) (sortHeartbeats l).length
        = (sortHeartbeats l).length := by omega
    rw [List.drop_eq_nil_of_le hcase, List.take_nil, hmin]
    simp only [List.getLastD_nil, List.getLastD_eq_getLast?, List.getLast?_eq_getElem?,
      List.getElem?_nil, Option.getD_none]
  · push_neg at hcase
    simp only [List.getLastD_eq_getLast?, List.getLast?_eq_getElem?, List.length_take,
      List.length_drop]
    have hm : min (chunkSizeOf l size) ((sortHeartbeats l).length - i * chunkSizeOf l size) - 1
        < chunkSizeOf l size := by omega
    rw [List.getElem?_take, if_pos hm, List.getElem?_drop]
    have hidx : i * chunkSizeOf l size +
        (min (chunkSizeOf l size) ((sortHeartbeats l).length - i * chunkSizeOf l size) - 1)
        = min ((i + 1) * chunkSizeOf l size) (sortHeartbeats l).length - 1 := by omega
    rw [hidx]
    have hlt : min ((i + 1) * chunkSizeOf l size) (sortHeartbeats l).length - 1
        < (sortHeartbeats l).length := by omega
    rw [List.getElem?_eq_getElem hlt]
    rfl

theorem getElem?_sorted_at_bucketIdx (l : List Heartbeat) (size : Nat) (h : l ≠ [])
    (hs : 0 < size) (i : Nat) :
    (sortHeartbeats l)[bucketIdx l size i]? = some (bucketOf l size h i) := by
  rw [bucketOf_eq_getElem? l size h hs i,
    List.getElem?_eq_getElem (bucketIdx_lt l size i h)]
  rfl

theorem getElem?_buildHistorySegments (l : List Heartbeat) (size : Nat) (h : l ≠ [])
    (i : Nat) (hi : i < size) :
    (buildHistorySegments l size)[i]? = some (bucketOf l size h i) := by
  rw [buildHistorySegments_eq_ofFn l size h, List.getElem?_ofFn]
  simp [List.ofFnNthVal, hi]

theorem bucketOf_mem (l : List Heartbeat) (size : Nat) (h : l ≠ []) (hs : 0 < size) (i : Nat) :
    bucketOf l size h i ∈ l := by
  have heq := bucketOf_eq_getElem? l size h hs i
  rw [List.getElem?_eq_getElem (bucketIdx_lt l size i h)] at heq
  simp only [Option.getD_some] at heq
  rw [heq]
  exact (perm_sortHeartbeats l).mem_iff.mp (List.getElem_mem _)

/-- The element at the final position of the sorted series is a member of the
input with maximal timestamp. -/
theorem exists_sorted_last_max (l : List Heartbeat) (h : l ≠ []) :
    ∃ b, (sortHeartbeats l)[(sortHeartbeats l).length - 1]? = some b ∧ b ∈ l ∧
      ∀ a ∈ l, a.time ≤ b.time := by
  have hn : 0 < (sortHeartbeats l).length := length_sortHeartbeats_pos l h
  refine ⟨(sortHeartbeats l).get ⟨(sortHeartbeats l).length - 1, by omega⟩, by simp, ?_, ?_⟩
  · exact (perm_sortHeartbeats l).mem_iff.mp (List.get_mem _ _ _)
  · intro a ha
    obtain ⟨j, hj, hja⟩ := List.getElem_of_mem ((perm_sortHeartbeats l).mem_iff.mpr ha)
    have hsorted := sorted_sortHeartbeats l
    rw [List.Sorted, List.pairwise_iff_getElem] at hsorted
    rcases Nat.lt_or_ge j ((sortHeartbeats l).length - 1) with hlt | hge
    · have := hsorted j ((sortHeartbeats l).length - 1) hj (by omega) hlt
      rw [hja] at this
      simpa [List.get_eq_getElem] using this
    · have hje : j = (sortHeartbeats l).length - 1 := by omega
      subst hje
      simp [List.get_eq_getElem, hja]

theorem bucketOf_eq_get (l : List Heartbeat) (size : Nat) (h : l ≠ []) (hs : 0 < size)
    (i : Nat) :
    bucketOf l size h i
      = (sortHeartbeats l).get ⟨bucketIdx l size i, bucketIdx_lt l size i h⟩ := by
  have heq := bucketOf_eq_getElem? l size h hs i
  rw [List.getElem?_eq_getElem (bucketIdx_lt l size i h)] at heq
  simpa [List.get_eq_getElem] using heq

-- Claim C3.

/-- C3: on the empty input sequence the bucketizer returns the empty
sequence, not bucketCount sentinel entries. -/
theorem C3_empty_input_empty_output (size : Nat) :
    buildHistorySegments [] size = [] := by
  unfold buildHistorySegments
  rw [dif_pos rfl]

-- Claim C2 (corrected): the invariant fails on the empty input.

/-- C2 counterexample: with zero samples and the default bucket count of 24,
the output has zero buckets, not 24. -/
theorem C2_counterexample : (buildHistorySegments [] 24).length ≠ 24 := by
  decide

/-- C2 amended: the output has exactly size buckets whenever the input is
non-empty, and zero buckets on the empty input. -/
theorem C2_bucket_count (l : List Heartbeat) (size : Nat) :
    (buildHistorySegments l size).length = if l = [] then 0 else size := by
  by_cases h : l = []
  · subst h
    rw [if_pos rfl]
    unfold buildHistorySegments
    rw [dif_pos rfl]
    rfl
  · rw [if_neg h, buildHistorySegments_eq_ofFn l size h, List.length_ofFn]

-- Claim C4.

/-- C4: whenever the input holds at least bucketCount samples, the output
holds exactly bucketCount buckets. -/
theorem C4_length_eq_size (l : List Heartbeat) (size : Nat) (hss : size ≤ l.length) :
    (buildHistorySegments l size).length = size := by
  by_cases h : l = []
  · subst h
    have hz : size = 0 := by simpa using hss
    subst hz
    rfl
  · rw [buildHistorySegments_eq_ofFn l size h, List.length_ofFn]

theorem C4_witness :
    2 ≤ ([hbAt 1 1 1, hbAt 2 1 2] : List Heartbeat).length ∧
      (buildHistorySegments [hbAt 1 1 1, hbAt 2 1 2] 2).length = 2 :=
  ⟨by decide, C4_length_eq_size [hbAt 1 1 1, hbAt 2 1 2] 2 (by decide)⟩

-- Claim C1.

/-- C1: for every non-empty input and positive bucket count, the sample of
the last output bucket is a sample of the input whose timestamp is maximal,
that is, the most recent sample overall. -/
theorem C1_last_bucket_most_recent (l : List Heartbeat) (size : Nat) (h : l ≠ [])
    (hs : 0 < size) :
    ∃ b, (buildHistorySegments l size).getLast? = some b ∧ b ∈ l ∧
      ∀ a ∈ l, a.time ≤ b.time := by
  obtain ⟨b, hb, hbl, hmax⟩ := exists_sorted_last_max l h
  have hn : 0 < (sortHeartbeats l).length := length_sortHeartbeats_pos l h
  have hw := length_le_chunkSizeOf_mul l size hs
  have hidx : bucketIdx l size (size - 1) = (sortHeartbeats l).length - 1 := by
    unfold bucketIdx
    have hms : (size - 1 + 1) * chunkSizeOf l size = chunkSizeOf l size * size := by
      rw [Nat.sub_add_cancel hs, Nat.mul_comm]
    rw [hms]
    omega
  have hbb := getElem?_sorted_at_bucketIdx l size h hs (size - 1)
  rw [hidx, hb] at hbb
  injection hbb with hbeq
  refine ⟨b, ?_, hbl, hmax⟩
  rw [buildHistorySegments_eq_ofFn l size h, List.getLast?_eq_getElem?, List.length_ofFn,
    List.getElem?_ofFn]
  simp [List.ofFnNthVal, Nat.sub_lt hs Nat.one_pos, ← hbeq]

theorem C1_witness :
    ([hbAt 3 1 1, hbAt 1 1 2, hbAt 2 0 3] : List Heartbeat) ≠ [] ∧ 0 < 24 ∧
      ∃ b, (buildHistorySegments [hbAt 3 1 1, hbAt 1 1 2, hbAt 2 0 3] 24).getLast? = some b ∧
        b ∈ [hbAt 3 1 1, hbAt 1 1 2, hbAt 2 0 3] ∧
        ∀ a ∈ [hbAt 3 1 1, hbAt 1 1 2, hbAt 2 0 3], a.time ≤ b.time :=
  ⟨by decide, by decide,
    C1_last_bucket_most_recent [hbAt 3 1 1, hbAt 1 1 2, hbAt 2 0 3] 24 (by decide) (by decide)⟩

-- Claim C7.

/-- C7: for every non-empty input and positive bucket count, the output is
ordered oldest to newest: bucket timestamps are nondecreasing from the first
bucket to the last, fallback-padded buckets included. -/
theorem C7_output_ordered (l : List Heartbeat) (size : Nat) (h : l ≠ []) (hs : 0 < size) :
    (buildHistorySegments l size).Pairwise fun a b => a.time ≤ b.time := by
  rw [buildHistorySegments_eq_ofFn l size h, List.pairwise_ofFn]
  intro i j hij
  have hijn : (i : Nat) < (j : Nat) := hij
  rw [bucketOf_eq_get l size h hs i, bucketOf_eq_get l size h hs j]
  have hmono : bucketIdx l size i ≤ bucketIdx l size j := by
    have hmm : (i + 1 : Nat) * chunkSizeOf l size ≤ ((j : Nat) + 1) * chunkSizeOf l size :=
      Nat.mul_le_mul_right _ (by omega)
    unfold bucketIdx
    omega
  rcases Nat.eq_or_lt_of_le hmono with heq | hlt
  · simp [List.get_eq_getElem, heq]
  · have hsorted := sorted_sortHeartbeats l
    rw [List.Sorted, List.pairwise_iff_getElem] at hsorted
    have := hsorted _ _ (bucketIdx_lt l size i h) (bucketIdx_lt l size j h) hlt
    simpa [List.get_eq_getElem, hbLe] using this

theorem C7_witness :
    ([hbAt 2 1 1, hbAt 1 1 2, hbAt 3 0 3] : List Heartbeat) ≠ [] ∧ 0 < 24 ∧
      (buildHistorySegments [hbAt 2 1 1, hbAt 1 1 2, hbAt 3 0 3] 24).Pairwise
        fun a b => a.time ≤ b.time :=
  ⟨by decide, by decide,
    C7_output_ordered [hbAt 2 1 1, hbAt 1 1 2, hbAt 3 0 3] 24 (by decide) (by decide)⟩

-- Claim C5.

/-- C5: for a non-empty input, whenever the chunk of some bucket index is
empty, that bucket holds the single most recent sample of recent, never an
absence marker. -/
theorem C5_empty_chunk_fallback (l : List Heartbeat) (size i : Nat) (h : l ≠ [])
    (hi : i < size)
    (hc : ((recentOf l size).drop (i * chunkSizeOf l size)).take (chunkSizeOf l size) = []) :
    ∃ b, (buildHistorySegments l size)[i]? = some b ∧ (recentOf l size).getLast? = some b ∧
      ∀ a ∈ recentOf l size, a.time ≤ b.time := by
  have hs : 0 < size := by omega
  obtain ⟨b, hb, hbl, hmax⟩ := exists_sorted_last_max l h
  have hbeq : bucketOf l size h i = b := by
    simp only [bucketOf]
    rw [hc, List.getLastD_nil, recentOf_eq_sorted l size hs, List.getLastD_eq_getLast?,
      List.getLast?_eq_getElem?, hb]
    rfl
  refine ⟨b, ?_, ?_, ?_⟩
  · rw [getElem?_buildHistorySegments l size h i hi, hbeq]
  · rw [recentOf_eq_sorted l size hs, List.getLast?_eq_getElem?, hb]
  · intro a ha
    rw [recentOf_eq_sorted l size hs] at ha
    exact hmax a ((perm_sortHeartbeats l).mem_iff.mp ha)

/-- A five-sample series used by witnesses that need an empty tail chunk. -/
def fiveSamples : List Heartbeat :=
  [hbAt 1 1 1, hbAt 2 1 2, hbAt 3 1 3, hbAt 4 0 4, hbAt 5 1 5]

theorem C5_witness :
    fiveSamples ≠ [] ∧ 3 < 4 ∧
      ((recentOf fiveSamples 4).drop (3 * chunkSizeOf fiveSamples 4)).take
          (chunkSizeOf fiveSamples 4) = [] ∧
      ∃ b, (buildHistorySegments fiveSamples 4)[3]? = some b ∧
        (recentOf fiveSamples 4).getLast? = some b ∧
        ∀ a ∈ recentOf fiveSamples 4, a.time ≤ b.time :=
  ⟨by decide, by decide, by decide,
    C5_empty_chunk_fallback fiveSamples 4 3 (by decide) (by decide) (by decide)⟩

-- Claim C8 (corrected): the boundary statement fails on the empty input.

/-- C8 counterexample: on the empty input, bucket count one yields zero
buckets, not a single bucket. -/
theorem C8_counterexample : (buildHistorySegments [] 1).length ≠ 1 := by
  decide

/-- C8 amended: for every non-empty input, bucket count one yields exactly
one bucket, whose sample is a sample of the input with maximal timestamp. -/
theorem C8_single_bucket (l : List Heartbeat) (h : l ≠ []) :
    ∃ b, buildHistorySegments l 1 = [b] ∧ b ∈ l ∧ ∀ a ∈ l, a.time ≤ b.time := by
  obtain ⟨b, hb, hbl, hmax⟩ := exists_sorted_last_max l h
  have hn : 0 < (sortHeartbeats l).length := length_sortHeartbeats_pos l h
  have hw := length_le_chunkSizeOf_mul l 1 Nat.one_pos
  have hidx : bucketIdx l 1 0 = (sortHeartbeats l).length - 1 := by
    unfold bucketIdx
    omega
  have hbb := getElem?_sorted_at_bucketIdx l 1 h Nat.one_pos 0
  rw [hidx, hb] at hbb
  injection hbb with hbeq
  refine ⟨b, ?_, hbl, hmax⟩
  have hofn : buildHistorySegments l 1 = [bucketOf l 1 h 0] := by
    rw [buildHistorySegments_eq_ofFn l 1 h]
    simp [List.ofFn_succ]
  rw [hofn, ← hbeq]

theorem C8_witness :
    ([hbAt 1 1 1, hbAt 9 0 2, hbAt 4 1 3] : List Heartbeat) ≠ [] ∧
      ∃ b, buildHistorySegments [hbAt 1 1 1, hbAt 9 0 2, hbAt 4 1 3] 1 = [b] ∧
        b ∈ [hbAt 1 1 1, hbAt 9 0 2, hbAt 4 1 3] ∧
        ∀ a ∈ [hbAt 1 1 1, hbAt 9 0 2, hbAt 4 1 3], a.time ≤ b.time :=
  ⟨by decide, C8_single_bucket [hbAt 1 1 1, hbAt 9 0 2, hbAt 4 1 3] (by decide)⟩

-- Claim C10.

/-- C10: ceiling chunk sizing covers the whole series: the window is at least
the input length, the slice start index is zero, recent is the entire sorted
series, and every output bucket is an element of the input. -/
theorem C10_window_covers_input (l : List Heartbeat) (size : Nat) (h : l ≠ [])
    (hs : 0 < size) :
    l.length ≤ chunkSizeOf l size * size ∧ startIndexOf l size = 0 ∧
      recentOf l size = sortHeartbeats l ∧
      ∀ b ∈ buildHistorySegments l size, b ∈ l := by
  refine ⟨?_, startIndexOf_eq_zero l size hs, recentOf_eq_sorted l size hs, ?_⟩
  · have hle := length_le_chunkSizeOf_mul l size hs
    rwa [length_sortHeartbeats] at hle
  · intro b hb
    rw [buildHistorySegments_eq_ofFn l size h, List.mem_ofFn] at hb
    obtain ⟨i, hi⟩ := hb
    rw [← hi]
    exact bucketOf_mem l size h hs i

theorem C10_witness :
    fiveSamples ≠ [] ∧ 0 < 3 ∧
      (fiveSamples.length ≤ chunkSizeOf fiveSamples 3 * 3 ∧
        startIndexOf fiveSamples 3 = 0 ∧
        recentOf fiveSamples 3 = sortHeartbeats fiveSamples ∧
        ∀ b ∈ buildHistorySegments fiveSamples 3, b ∈ fiveSamples) :=
  ⟨by decide, by decide, C10_window_covers_input fiveSamples 3 (by decide) (by decide)⟩

-- Claim C6 (corrected): shuffle invariance fails when timestamps tie,
-- because the stable sort keeps the original relative order of ties.

/-- Two samples sharing the timestamp 1 but differing in status and id. -/
def tieA : Heartbeat := hbAt 1 0 1

/-- The partner of tieA with the same timestamp. -/
def tieB : Heartbeat := hbAt 1 1 2

/-- C6 counterexample: swapping two equal-timestamp samples permutes the
input yet changes the output of the bucketizer. -/
theorem C6_counterexample :
    List.Perm [tieA, tieB] [tieB, tieA] ∧
      buildHistorySegments [tieA, tieB] 1 ≠ buildHistorySegments [tieB, tieA] 1 :=
  ⟨List.Perm.swap _ _ _, by decide⟩

theorem sortHeartbeats_strict_of_nodup (l : List Heartbeat)
    (hnd : (l.map Heartbeat.time).Nodup) :
    List.Sorted hbLt (sortHeartbeats l) := by
  have hle := sorted_sortHeartbeats l
  have hnd2 : ((sortHeartbeats l).map Heartbeat.time).Nodup :=
    (((perm_sortHeartbeats l).map Heartbeat.time).nodup_iff).mpr hnd
  have hne : (sortHeartbeats l).Pairwise fun a b => a.time ≠ b.time :=
    List.pairwise_map.mp hnd2
  exact (hle.and hne).imp fun hab => lt_of_le_of_ne hab.1 hab.2

theorem sortHeartbeats_eq_of_perm (l l2 : List Heartbeat)
    (hnd : (l.map Heartbeat.time).Nodup) (hp : List.Perm l l2) :
    sortHeartbeats l = sortHeartbeats l2 := by
  have hnd2 : (l2.map Heartbeat.time).Nodup := ((hp.map Heartbeat.time).nodup_iff).mp hnd
  have hperm : List.Perm (sortHeartbeats l) (sortHeartbeats l2) :=
    (perm_sortHeartbeats l).trans (hp.trans (perm_sortHeartbeats l2).symm)
  exact List.eq_of_perm_of_sorted hperm (sortHeartbeats_strict_of_nodup l hnd)
    (sortHeartbeats_strict_of_nodup l2 hnd2)

/-- C6 amended: when all samples carry pairwise distinct timestamps, every
permutation of the input yields the same output, since sorting then
normalizes the order completely. -/
theorem C6_perm_invariant (l l2 : List Heartbeat) (size : Nat)
    (hnd : (l.map Heartbeat.time).Nodup) (hp : List.Perm l l2) :
    buildHistorySegments l size = buildHistorySegments l2 size := by
  have hse := sortHeartbeats_eq_of_perm l l2 hnd hp
  by_cases h : l = []
  · subst h
    have h2 : l2 = [] := by
      have hlen := hp.length_eq
      simpa [List.length_eq_zero] using hlen.symm
    subst h2
    rfl
  · have h2 : l2 ≠ [] := by
      intro hh
      apply h
      subst hh
      have hlen := hp.length_eq
      simpa [List.length_eq_zero] using hlen
    rw [buildHistorySegments_eq_ofFn l size h, buildHistorySegments_eq_ofFn l2 size h2]
    congr 1
    funext i
    have hs : 0 < size := i.pos
    have hcs : chunkSizeOf l size = chunkSizeOf l2 size := by
      unfold chunkSizeOf
      rw [hse]
    have hidx : bucketIdx l size i = bucketIdx l2 size i := by
      unfold bucketIdx
      rw [hse, hcs]
    rw [bucketOf_eq_get l size h hs i, bucketOf_eq_get l2 size h2 hs i]
    simp [List.get_eq_getElem, hse, hidx]

theorem C6_witness :
    (([hbAt 1 0 1, hbAt 2 1 2] : List Heartbeat).map Heartbeat.time).Nodup ∧
      List.Perm [hbAt 1 0 1, hbAt 2 1 2] [hbAt 2 1 2, hbAt 1 0 1] ∧
      buildHistorySegments [hbAt 1 0 1, hbAt 2 1 2] 24
        = buildHistorySegments [hbAt 2 1 2, hbAt 1 0 1] 24 :=
  ⟨by decide, List.Perm.swap _ _ _,
    C6_perm_invariant [hbAt 1 0 1, hbAt 2 1 2] [hbAt 2 1 2, hbAt 1 0 1] 24 (by decide)
      (List.Perm.swap _ _ _)⟩

-- Claim C9 (corrected): a refined embedding that keeps track of timestamp
-- parse failures.  In the source the comparator computes
-- new Date(a.time).getTime() - new Date(b.time).getTime(); when a time
-- string does not parse, getTime() is NaN, the difference is NaN, and the
-- ECMAScript SortCompare operation coerces a NaN comparator result to +0,
-- so a malformed sample compares as a tie with everything.  The parsed time
-- is therefore modelled as an optional integer, none standing for NaN, and
-- no code path of the function can signal any error.

/-- A heartbeat record whose parsed time may be NaN (none): the raw input
domain of the bucketizer, before the precondition of parseable timestamps
is assumed. -/
structure RawHeartbeat where
  id : Int
  monitor_id : Int
  status : Int
  msg : String
  time : Option Int
  ping : Int
  duration : Int
  down_count : Int
  important : Int
deriving DecidableEq

/-- Comparator order on possibly-NaN parsed times: a NaN on either side is a
tie (the SortCompare coercion of NaN to +0), hence never strictly after. -/
def rawTimeLe (x y : Option Int) : Prop :=
  match x, y with
  | some a, some b => a ≤ b
  | _, _ => True

instance (x y : Option Int) : Decidable (rawTimeLe x y) :=
  match x, y with
  | some a, some b => inferInstanceAs (Decidable (a ≤ b))
  | some _, none => isTrue trivial
  | none, some _ => isTrue trivial
  | none, none => isTrue trivial

/-- Comparator order of the sort call on raw heartbeats. -/
def rawLe (a b : RawHeartbeat) : Prop := rawTimeLe a.time b.time

instance : DecidableRel rawLe := fun a b =>
  inferInstanceAs (Decidable (rawTimeLe a.time b.time))

/-- The stable sort of the raw series by (possibly NaN) parsed time. -/
def rawSortHeartbeats (l : List RawHeartbeat) : List RawHeartbeat :=
  List.insertionSort rawLe l

/-- chunkSize of the raw run. -/
def rawChunkSizeOf (l : List RawHeartbeat) (size : Nat) : Nat :=
  ((rawSortHeartbeats l).length + size - 1) / size

/-- startIndex of the raw run. -/
def rawStartIndexOf (l : List RawHeartbeat) (size : Nat) : Nat :=
  (rawSortHeartbeats l).length - rawChunkSizeOf l size * size

/-- recent of the raw run. -/
def rawRecentOf (l : List RawHeartbeat) (size : Nat) : List RawHeartbeat :=
  (rawSortHeartbeats l).drop (rawStartIndexOf l size)

/-- One output bucket of the raw run. -/
def rawBucketOf (l : List RawHeartbeat) (size : Nat) (h : l ≠ []) (i : Nat) : RawHeartbeat :=
  let chunk :=
    ((rawRecentOf l size).drop (i * rawChunkSizeOf l size)).take (rawChunkSizeOf l size)
  chunk.getLastD ((rawRecentOf l size).getLastD (l.head h))

/-- The bucketizer on the raw input domain, malformed timestamps included:
the same code, with no failure channel in its type. -/
def rawBuildHistorySegments (heartbeats : List RawHeartbeat) (size : Nat := 24) :
    List RawHeartbeat :=
  if h : heartbeats = [] then []
  else List.ofFn fun i : Fin size => rawBucketOf heartbeats size h i

theorem rawBuildHistorySegments_eq_ofFn (l : List RawHeartbeat) (size : Nat) (h : l ≠ []) :
    rawBuildHistorySegments l size
      = List.ofFn fun i : Fin size => rawBucketOf l size h i := by
  unfold rawBuildHistorySegments
  rw [dif_neg h]

theorem getLastD_mem_or {α : Type} (L : List α) (d : α) :
    L.getLastD d ∈ L ∨ L.getLastD d = d := by
  cases L with
  | nil => exact Or.inr rfl
  | cons a t =>
    left
    rw [List.getLastD_cons]
    exact List.getLastD_mem_cons t a

theorem rawBucketOf_mem (l : List RawHeartbeat) (size : Nat) (h : l ≠ []) (i : Nat) :
    rawBucketOf l size h i ∈ l := by
  have hrec : ∀ x, x ∈ rawRecentOf l size → x ∈ l := by
    intro x hx
    unfold rawRecentOf at hx
    exact ((List.perm_insertionSort rawLe l).mem_iff).mp (List.drop_subset _ _ hx)
  simp only [rawBucketOf]
  rcases getLastD_mem_or
      (((rawRecentOf l size).drop (i * rawChunkSizeOf l size)).take (rawChunkSizeOf l size))
      ((rawRecentOf l size).getLastD (l.head h)) with hm | he
  · exact hrec _ (List.drop_subset _ _ (List.take_subset _ _ hm))
  · rw [he]
    rcases getLastD_mem_or (rawRecentOf l size) (l.head h) with hm2 | he2
    · exact hrec _ hm2
    · rw [he2]
      exact List.head_mem h

/-- A heartbeat whose time string does not parse: its parsed time is NaN,
modelled as none. -/
def badHeartbeat : RawHeartbeat := ⟨1, 1, 0, "not-a-date", none, 0, 0, 0, 0⟩

/-- C9 counterexample: on an input consisting of a sample with an
unparseable timestamp, the bucketizer signals nothing: it silently returns
the usual 24 buckets, each holding the malformed sample itself. -/
theorem C9_counterexample :
    rawBuildHistorySegments [badHeartbeat] 24 = List.replicate 24 badHeartbeat := by
  decide

/-- C9 amended: the bucketizer never fails, malformed timestamps included:
on every non-empty raw input it silently returns exactly size buckets, each
of them one of the input samples, with NaN timestamps merely comparing as
ties during the sort. -/
theorem C9_no_invalid_input_signal (l : List RawHeartbeat) (size : Nat) (h : l ≠ []) :
    (rawBuildHistorySegments l size).length = size ∧
      ∀ b ∈ rawBuildHistorySegments l size, b ∈ l := by
  constructor
  · rw [rawBuildHistorySegments_eq_ofFn l size h, List.length_ofFn]
  · intro b hb
    rw [rawBuildHistorySegments_eq_ofFn l size h, List.mem_ofFn] at hb
    obtain ⟨i, hi⟩ := hb
    rw [← hi]
    exact rawBucketOf_mem l size h i

theorem C9_witness :
    ([badHeartbeat] : List RawHeartbeat) ≠ [] ∧
      ((rawBuildHistorySegments [badHeartbeat] 24).length = 24 ∧
        ∀ b ∈ rawBuildHistorySegments [badHeartbeat] 24, b ∈ [badHeartbeat]) :=
  ⟨by decide, C9_no_invalid_input_signal [badHeartbeat] 24 (by decide)⟩
